import Mathlib

/-!
Shallow embedding of the go-sfgen code generator, covering the naming
engine, the struct-field resolver, the type-expression encoder, the
output assembler and the package-catalog key. Each definition mirrors
one function of the Go source; external libraries (the struct-tag
parser, the regular-expression engine, the filesystem path resolver)
appear as already-parsed data or as abstract function parameters, as
noted in the doc comments.
-/

namespace Sfgen

/-- Go unicode.ToUpper applied to one rune, restricted to the ASCII
simple case mapping implemented by Lean Char.toUpper. -/
def capFirst (exported : Bool) (c : Char) : Char :=
  if exported then c.toUpper else c.toLower

/-- Mirrors the rune-slice first-character recasing done both in
calculateBaseName and in the parseStructFields loop of main.go. Returns
none when the string is empty, which in Go is an index-out-of-range
panic on the empty rune slice. -/
def recaseFirst (exported : Bool) (s : String) : Option String :=
  match s.data with
  | [] => none
  | c :: cs => some ⟨capFirst exported c :: cs⟩

/-- Total variant of recaseFirst used where the surrounding program
guarantees a non-empty string; on the empty string it returns the
string unchanged. -/
def recaseFirstD (exported : Bool) (s : String) : String :=
  match s.data with
  | [] => s
  | c :: cs => ⟨capFirst exported c :: cs⟩

/-- Go strings.ToUpper on the ASCII range. -/
def strToUpper (s : String) : String := ⟨s.data.map Char.toUpper⟩

/-- Go strings.ToLower on the ASCII range. -/
def strToLower (s : String) : String := ⟨s.data.map Char.toLower⟩

/-- Characters 0 .. n-1 of s, as in a Go slice expression s[:n]. -/
def strTake (s : String) (n : Nat) : String := ⟨s.data.take n⟩

/-- Characters n .. end of s, as in a Go slice expression s[n:]. -/
def strDrop (s : String) (n : Nat) : String := ⟨s.data.drop n⟩

def lastIdxAux (c : Char) : List Char → Nat → Option Nat
  | [], _ => none
  | x :: xs, i =>
    match lastIdxAux c xs (i + 1) with
    | some j => some j
    | none => if x = c then some i else none

/-- Go strings.LastIndexByte, with character positions instead of byte
positions (the two agree on ASCII). -/
def lastIndexOfChar (c : Char) (s : String) : Option Nat :=
  lastIdxAux c s.data 0

/-- Go strings.SplitN with limit 2: the part before the first
occurrence of sep, and the remainder if sep occurs at all. -/
def splitN2 (sep : String) (s : String) : List String :=
  match s.splitOn sep with
  | [] => [s]
  | x :: rest => if rest.isEmpty then [x] else [x, String.intercalate sep rest]

/-- One struct-tag entry as produced by the external structtag library:
a key, the leading name portion of its value, and the comma-separated
option list after the name. The library parse step itself is external
to this repository and is modeled as already-completed. -/
structure Tag where
  key : String
  name : String
  options : List String
deriving Repr, DecidableEq

/-- The structtag Value method: name and options rejoined with commas. -/
def Tag.Value (t : Tag) : String :=
  if t.options.isEmpty then t.name
  else t.name ++ "," ++ String.intercalate "," t.options

/-- The structtag Get method: the first tag whose key matches. -/
def tagsGet (k : String) (tags : List Tag) : Option Tag :=
  tags.find? (fun t => t.key = k)

/-- Style flag constants from the Go source. -/
def StyleTyped : String := "typed"

def StyleGeneric : String := "generic"

def StyleAlias : String := "alias"

/-- The per-request option record FlagOptions of the Go source, limited
to the fields the core generation path reads. -/
structure FlagOptions where
  DryRun : Bool := false
  OutputFile : String := ""
  OutputDir : String := "."
  OutputPackage : String := ""
  SourceStruct : String := ""
  SourceStructDir : String := "."
  PackageName : String := ""
  IncludeTests : Bool := false
  Style : String := ""
  Tag : String := ""
  TagNameRegex : String := ""
  Prefix : Option String := none
  Export : Bool := false
  UseStructName : Bool := false
  IncludeUnexportedFields : Bool := false
  Iter : Bool := false
deriving Repr, DecidableEq

/-- The local variable named prefix inside calculateBaseName of
main.go, before the final first-character recasing. -/
def calculateBaseNameRaw (f : FlagOptions) : String :=
  let tagName := if f.UseStructName || f.Export then strToUpper f.Tag else strToLower f.Tag
  match f.Prefix with
  | some p => p
  | none =>
    let p := if f.UseStructName then f.SourceStruct ++ tagName else tagName
    p ++ "Field"

/-- calculateBaseName of main.go. The Go function indexes rune 0 of the
composed string, so it panics when the composed string is empty; that
panic is modeled as none. -/
def calculateBaseName (f : FlagOptions) : Option String :=
  recaseFirst f.Export (calculateBaseNameRaw f)

/-- packageToLoad of package.go: the identity of one source location to
load. -/
structure packageToLoad where
  Dir : String
  PackageName : String
  IncludeTests : Bool
deriving Repr, DecidableEq

/-- Rendering of a Go bool by the fmt verb used in Key. -/
def boolString : Bool → String
  | true => "true"
  | false => "false"

/-- The Key method of packageToLoad: plain concatenation of directory,
package name and include-tests flag with no separator. -/
def packageToLoad.Key (p : packageToLoad) : String :=
  p.Dir ++ p.PackageName ++ boolString p.IncludeTests

/-- The deduplication loop of loadPackageScopes in package.go: one load
task is started per unseen Key, so locations sharing a Key share one
cached load entry. -/
def uniqueLoads : List packageToLoad → List String → List packageToLoad
  | [], _ => []
  | p :: ps, seen =>
    if seen.contains p.Key then uniqueLoads ps seen
    else p :: uniqueLoads ps (p.Key :: seen)

/-- Channel direction of a Go channel type. -/
inductive ChanDir where
  | sendOnly
  | recvOnly
  | sendRecv
deriving Repr, DecidableEq

mutual
/-- The shapes of go/types values handled by parseTypeName. A named
type carries the fully qualified string produced by its String method. -/
inductive GoType where
  | basic (name : String)
  | slice (elem : GoType)
  | array (size : Nat) (elem : GoType)
  | chanT (dir : ChanDir) (elem : GoType)
  | ptr (elem : GoType)
  | mapT (key val : GoType)
  | sig (params results : GoTypeList)
  | typeParam
  | named (fullName : String)

/-- Parameter or result list of a Go function signature. -/
inductive GoTypeList where
  | nil
  | cons (hd : GoType) (tl : GoTypeList)
end

/-- parseNamedType of main.go: split the fully qualified name at the
last dot; a home-package type keeps only the local identifier and needs
no import, anything else keeps the text after the last slash and
records its package path as the single required import. -/
def parseNamedType (structPackage : String) (name : String) : String × List String :=
  let dotIndex := lastIndexOfChar '.' name
  let pkgPath := match dotIndex with
    | some i => strTake name i
    | none => name
  if pkgPath = structPackage then
    (match dotIndex with
     | some i => strDrop name (i + 1)
     | none => name, [])
  else
    let slashIndex := lastIndexOfChar '/' name
    let newName := match slashIndex with
      | some j => strDrop name (j + 1)
      | none => name
    match dotIndex with
    | some i => (newName, [strTake name i])
    | none => (newName, [])

mutual
/-- parseTypeName of the build-tagged encoder file: renders a type to
Go source text and collects the import paths the text requires. -/
def parseTypeName (structPackage : String) : GoType → String × List String
  | .basic n => (n, [])
  | .slice e =>
    let (t, imps) := parseTypeName structPackage e
    ("[]" ++ t, imps)
  | .array n e =>
    let (t, imps) := parseTypeName structPackage e
    ("[" ++ toString n ++ "]" ++ t, imps)
  | .chanT d e =>
    let (t, imps) := parseTypeName structPackage e
    (match d with
     | .sendOnly => "chan <- " ++ t
     | .recvOnly => "<-chan " ++ t
     | .sendRecv => "chan " ++ t, imps)
  | .ptr e =>
    let (t, imps) := parseTypeName structPackage e
    ("*" ++ t, imps)
  | .mapT k v =>
    let (kt, ki) := parseTypeName structPackage k
    let (vt, vi) := parseTypeName structPackage v
    ("map[" ++ kt ++ "]" ++ vt, ki ++ vi)
  | .sig ps rs =>
    let (pTexts, pImps) := parseTypeNameList structPackage ps
    let (rTexts, rImps) := parseTypeNameList structPackage rs
    let rText := if rTexts.length > 1 then "(" ++ String.intercalate "," rTexts ++ ")"
      else String.intercalate "," rTexts
    ("func (" ++ String.intercalate "," pTexts ++ ")" ++ rText, pImps ++ rImps)
  | .typeParam => ("any", [])
  | .named n => parseNamedType structPackage n

/-- Element-wise encoding of a parameter or result list inside
parseTypeNameSignature of main.go, imports concatenated left to right;
the sig case above assembles the surrounding text exactly as that
function writes it (results parenthesized only when at least two). -/
def parseTypeNameList (structPackage : String) : GoTypeList → List String × List String
  | .nil => ([], [])
  | .cons t ts =>
    let (tt, ti) := parseTypeName structPackage t
    let (rest, ri) := parseTypeNameList structPackage ts
    (tt :: rest, ti ++ ri)
end

/-- Scan of the option list inside sfgenTagName of main.go: the first
entry of the form target:value with a non-empty value replaces the
running name, later entries are ignored. -/
def findOverride (targetTagName : String) : List String → String → String
  | [], tagName => tagName
  | v :: rest, tagName =>
    let w := v.trim
    if w = "" then findOverride targetTagName rest tagName
    else
      match splitN2 ":" w with
      | [a, b] =>
        if a = targetTagName ∧ b ≠ "" then b
        else findOverride targetTagName rest tagName
      | _ => findOverride targetTagName rest tagName

/-- sfgenTagName of main.go: the explicit per-field override. The Go
function returns a string and an ok flag that is false exactly when the
override value is absent or empty; the pair is modeled as an Option. -/
def sfgenTagName (targetTagName : String) (tags : List Tag) : Option String :=
  match tagsGet "sfgen" tags with
  | none => none
  | some sfgenTag =>
    let tagValue := sfgenTag.Value
    if tagValue = "" then none
    else
      match splitN2 "," tagValue.trim with
      | [tagName] => if tagName = "" then none else some tagName
      | tagName :: restPart :: _ =>
        let result := findOverride targetTagName (restPart.splitOn " ") tagName
        if result = "" then none else some result
      | [] => none

/-- Abstract semantics of the Go regexp library as used by parseField:
compiling a pattern either fails or yields a matcher that returns the
first capture group when FindStringSubmatch produces at least two
entries. -/
def RegexCompile : Type := String → Option (String → Option String)

/-- parseFieldResult of main.go. -/
structure parseFieldResult where
  fieldType : String
  constName : String
  constValue : String
  requiredImports : List String
deriving Repr, DecidableEq

/-- parsedField of main.go: a parseFieldResult plus the possibly
recased base name in force when the field was emitted. -/
structure parsedField extends parseFieldResult where
  baseName : String
deriving Repr, DecidableEq

mutual
/-- One field of a Go struct: its name, parsed tag entries, type, and
export flag. The emb form records the result of the
fieldIsEmbeddedStruct unwrapping in main.go: an embedded field whose
type resolves to a struct carries that struct. -/
inductive GoField where
  | plain (name : String) (tags : List Tag) (ftype : GoType) (exported : Bool)
  | emb (name : String) (tags : List Tag) (ftype : GoType) (exported : Bool) (struct : GoStruct)

/-- Field list of a Go struct, in declaration order. -/
inductive GoFieldList where
  | nil
  | cons (hd : GoField) (tl : GoFieldList)

/-- A Go struct type as consumed by parseStructFields. -/
inductive GoStruct where
  | mk (fields : GoFieldList)
end

def GoField.name : GoField → String
  | .plain n _ _ _ => n
  | .emb n _ _ _ _ => n

def GoField.tags : GoField → List Tag
  | .plain _ t _ _ => t
  | .emb _ t _ _ _ => t

def GoField.ftype : GoField → GoType
  | .plain _ _ t _ => t
  | .emb _ _ t _ _ => t

def GoField.exported : GoField → Bool
  | .plain _ _ _ e => e
  | .emb _ _ _ e _ => e

def GoField.embeddedStruct : GoField → Option GoStruct
  | .plain _ _ _ _ => none
  | .emb _ _ _ _ s => some s

/-- parseField of main.go. The struct-tag parse step is external and
modeled as the already-parsed tag list inside the field; the regexp
compile step is the abstract compile parameter. -/
def parseField (compile : RegexCompile) (structPackage : String) (field : GoField)
    (baseName : String) (f : FlagOptions) : Except String parseFieldResult :=
  let (fieldType, imps) := parseTypeName structPackage field.ftype
  match sfgenTagName f.Tag field.tags with
  | some sfgenTag => .ok ⟨fieldType, baseName ++ field.name, sfgenTag, imps⟩
  | none =>
    if f.Tag = "" then .ok ⟨fieldType, baseName ++ field.name, field.name, imps⟩
    else
      match tagsGet f.Tag field.tags with
      | none => .ok ⟨fieldType, baseName ++ field.name, field.name, imps⟩
      | some nameFromTag =>
        if nameFromTag.Value.length > 0 ∧ f.TagNameRegex ≠ "" then
          match compile f.TagNameRegex with
          | none => .error ("failed to compile regex expression " ++ f.TagNameRegex)
          | some re =>
            let tagNameValue := match re nameFromTag.Value with
              | some capture => capture
              | none => field.name
            .ok ⟨fieldType, baseName ++ field.name, tagNameValue, imps⟩
        else
          let tagNameValue :=
            if nameFromTag.name.length > 0 ∧ f.TagNameRegex = "" then nameFromTag.name
            else field.name
          .ok ⟨fieldType, baseName ++ field.name, tagNameValue, imps⟩

/-- Running state of the parseStructFields loop in main.go: the emitted
top-level fields, the set of their constant names, and the fields
collected from embedded structs, each in encounter order. -/
structure FieldsAcc where
  tops : List parsedField
  topNames : List String
  embs : List parsedField
deriving Repr, DecidableEq

mutual
/-- parseStructFields of main.go: walk the fields, then append the
embedded-struct fields whose constant name no top-level field claimed. -/
def parseStructFields (compile : RegexCompile) (f : FlagOptions)
    (structPackage baseName : String) : GoStruct → Except String (List parsedField)
  | .mk flds => do
    let acc ← goFields compile f structPackage baseName flds
    pure (acc.tops ++ acc.embs.filter (fun pf => ¬ acc.topNames.contains pf.constName))

/-- The loop body of parseStructFields: skip unexported fields unless
requested, skip fields whose computed value is the dash sentinel,
splice embedded structs via recursion, and recase the running base name
after each emitted top-level field exactly as the Go loop mutates it. -/
def goFields (compile : RegexCompile) (f : FlagOptions)
    (structPackage baseName : String) : GoFieldList → Except String FieldsAcc
  | .nil => pure ⟨[], [], []⟩
  | .cons fld rest =>
    if ¬ f.IncludeUnexportedFields ∧ ¬ fld.exported then
      goFields compile f structPackage baseName rest
    else do
      let r ← parseField compile structPackage fld baseName f
      if r.constValue = "-" then goFields compile f structPackage baseName rest
      else
        match fld with
        | .emb _ _ _ _ s => do
          let embFs ← parseStructFields compile f structPackage baseName s
          let acc ← goFields compile f structPackage baseName rest
          pure ⟨acc.tops, acc.topNames, embFs ++ acc.embs⟩
        | .plain _ _ _ _ => do
          let bn2 := recaseFirstD f.Export baseName
          let acc ← goFields compile f structPackage bn2 rest
          pure ⟨⟨r, bn2⟩ :: acc.tops, r.constName :: acc.topNames, acc.embs⟩
end

/-- The type declaration parsePackage writes ahead of the constant
block, one variant per requested style. -/
inductive TypeDecl where
  | plain
  | alias (name : String)
  | typed (name : String)
  | generic (name : String)
deriving Repr, DecidableEq

/-- One line of the generated constant block, shaped by the requested
style exactly as the switch in parsePackage formats it. -/
inductive ConstEntry where
  | untyped (name value : String)
  | styled (name typeName value : String)
  | generic (name typeName fieldType value : String)
deriving Repr, DecidableEq

/-- The structured content of the text fragment one parsePackage call
produces: the optional type declaration, the constant block entries in
emission order, the All helper value list when requested, and the
required import paths of the fragment. -/
structure GenFragment where
  typeDecl : TypeDecl
  constants : List ConstEntry
  allValues : Option (List String)
  imports : List String
deriving Repr, DecidableEq

/-- parsePackage of main.go, with the loadStruct step modeled by
passing the already-loaded struct and its package path, and the text
buffers modeled as the structured GenFragment. The leading style check
aborts before anything else happens, as the Go log.Fatalf does. -/
def parsePackage (compile : RegexCompile) (f : FlagOptions) (structPackage : String)
    (s : GoStruct) : Except String GenFragment :=
  if f.Iter ∧ f.Style = StyleAlias then
    .error ("Invalid style " ++ f.Style ++ ": only generic and typed styles may be used with the iter flag")
  else
    match calculateBaseName f with
    | none => .error "panic: runtime error: index out of range"
    | some baseName => do
      let fields ← parseStructFields compile f structPackage baseName s
      let imports := if f.Style = StyleGeneric then
          fields.flatMap (fun fld => fld.requiredImports)
        else []
      let constants := fields.map (fun fld =>
        if f.Style = StyleAlias ∨ f.Style = StyleTyped then
          ConstEntry.styled fld.constName fld.baseName fld.constValue
        else if f.Style = StyleGeneric then
          ConstEntry.generic fld.constName fld.baseName fld.fieldType fld.constValue
        else ConstEntry.untyped fld.constName fld.constValue)
      let fieldNames := fields.map (fun fld => fld.constValue)
      let typeDecl := if f.Style = StyleAlias then TypeDecl.alias baseName
        else if f.Style = StyleTyped then TypeDecl.typed baseName
        else if f.Style = StyleGeneric then TypeDecl.generic baseName
        else TypeDecl.plain
      pure ⟨typeDecl, constants, if f.Iter then some fieldNames else none, imports⟩

/-- The import-deduplication loop of generateCodeForFileGroup: an
entry is emitted the first time it is seen, with one seen set carried
across the whole group. -/
def mergeSeen (seen : List String) : List String → List String
  | [] => []
  | i :: is => if seen.contains i then mergeSeen seen is else i :: mergeSeen (i :: seen) is

/-- The double loop of generateCodeForFileGroup over each request and
then each of its imports visits exactly the concatenation of the
per-request import lists in order, with one shared seen set. -/
def mergeImports (importLists : List (List String)) : List String :=
  mergeSeen [] importLists.flatten

/-- Specification-side first-seen deduplication: keep the first
occurrence of each element, drop the rest. -/
def dedupFirst : List String → List String
  | [] => []
  | a :: l => a :: dedupFirst (l.filter (fun x => x ≠ a))
termination_by l => l.length
decreasing_by
  simp_wf
  exact Nat.lt_succ_of_le (List.length_filter_le _ _)

/-- The result of one generateCodeForFileGroup call: destination
package, the per-request fragments in caller-supplied order, and the
merged import list. -/
structure GroupResult where
  outPkg : String
  fragments : List GenFragment
  imports : List String
deriving Repr, DecidableEq

/-- generateCodeForFileGroup of main.go without the file writing it
hands to the filesystem: resolve every request in input order, keep the
fragments in that order, and merge the import lists. -/
def generateCodeForFileGroup (compile : RegexCompile)
    (group : List (FlagOptions × String × GoStruct)) : Except String GroupResult :=
  match group with
  | [] => .ok ⟨"", [], []⟩
  | g0 :: _ => do
    let frags ← group.mapM (fun g => parsePackage compile g.1 g.2.1 g.2.2)
    pure ⟨g0.1.OutputPackage, frags, mergeImports (frags.map (fun fr => fr.imports))⟩

/-- One output-file group as main.go accumulates it: the absolute
output key, the first request mapped to it, and all its requests in
arrival order. -/
structure OutGroup where
  key : String
  first : FlagOptions
  all : List FlagOptions
deriving Repr, DecidableEq

/-- The per-request path resolution at the top of the main loop:
default the output file name from the struct and base names, resolve
directories to absolute form through the abstract absPath parameter
standing for filepath.Abs, and join them. A defaulted file name needs
calculateBaseName, whose panic on an empty explicit Prefix is the none
case. -/
def resolveOut (absPath : String → String) (f : FlagOptions) :
    Except String (String × FlagOptions) :=
  let f1 := {f with SourceStructDir := absPath f.SourceStructDir}
  match (if f1.OutputFile = "" then
      (calculateBaseName f1).map (fun b =>
        strToLower f1.SourceStruct ++ "_" ++ strToLower b ++ "_generated.go")
    else some f1.OutputFile) with
  | none => .error "panic: runtime error: index out of range"
  | some outFile =>
    let absOutDir := absPath f1.OutputDir
    let absOut := absOutDir ++ "/" ++ outFile
    .ok (absOut, {f1 with OutputDir := absOutDir, OutputFile := absOut})

/-- Append one more request to the group carrying the given key; other
groups, the group key and the group head stay untouched. -/
def bumpGroup (k0 : String) (f0 : FlagOptions) (g : OutGroup) : OutGroup :=
  if g.key = k0 then {g with all := g.all ++ [f0]} else g

/-- The grouping loop of main: requests with the same resolved output
key join one group, and a request whose destination package differs
from the package of the first request of its group is a fatal error
raised during grouping, before any generation starts. -/
def buildGroups (absPath : String → String) :
    List FlagOptions → List OutGroup → Except String (List OutGroup)
  | [], acc => .ok acc
  | f :: rest, acc => do
    let (absOut, f1) ← resolveOut absPath f
    match acc.find? (fun g => g.key = absOut) with
    | some g =>
      if g.first.OutputPackage ≠ f1.OutputPackage then
        .error ("invalid package values provided. Cannot use both package values within output file " ++ absOut)
      else
        buildGroups absPath rest (acc.map (bumpGroup absOut f1))
    | none => buildGroups absPath rest (acc ++ [⟨absOut, f1, [f1]⟩])

/-- The two phases of main relevant to grouping claims: build all
groups, then run generation per group. Generation is abstracted as the
gen parameter so that statements can quantify over it; when grouping
fails, no group is ever generated whatever gen does. -/
def mainModel (absPath : String → String)
    (gen : OutGroup → Except String GroupResult)
    (reqs : List FlagOptions) : Except String (List GroupResult) := do
  let groups ← buildGroups absPath reqs []
  groups.mapM gen

/-- The constant value for an override-free field exactly as claim C2
words it: field identifier when the configured key is absent, the name
portion of the tag when present with no capture expression, and with a
capture expression the first capture group when it matches, else the
field identifier. -/
def claimedConstValue (compile : RegexCompile) (f : FlagOptions)
    (fieldName : String) (tags : List Tag) : String :=
  match tagsGet f.Tag tags with
  | none => fieldName
  | some t =>
    if f.TagNameRegex = "" then t.name
    else
      match compile f.TagNameRegex with
      | some re =>
        match re t.Value with
        | some capture => capture
        | none => fieldName
      | none => fieldName

/-- The constant value rule the code actually implements for a field
without an sfgen override: field identifier when the configured key is
absent; with no capture expression, the name portion only when it is
non-empty, else the field identifier; with a capture expression, only
when the full tag value is non-empty is the expression compiled (a
compile failure aborts the request) and applied, using the first
capture group when it matches and the field identifier otherwise; a
present key with an empty tag value yields the field identifier. -/
def amendedConstValue (compile : RegexCompile) (f : FlagOptions)
    (fieldName : String) (tags : List Tag) : Except String String :=
  if f.Tag = "" then .ok fieldName
  else
    match tagsGet f.Tag tags with
    | none => .ok fieldName
    | some t =>
      if f.TagNameRegex = "" then .ok (if t.name ≠ "" then t.name else fieldName)
      else if t.Value ≠ "" then
        match compile f.TagNameRegex with
        | none => .error ("failed to compile regex expression " ++ f.TagNameRegex)
        | some re => .ok (match re t.Value with
          | some capture => capture
          | none => fieldName)
      else .ok fieldName

mutual
/-- All field identifiers reachable from a struct, the promoted fields
of embedded structs included. -/
def allFieldNames : GoStruct → List String
  | .mk flds => fieldNamesList flds

def fieldNamesList : GoFieldList → List String
  | .nil => []
  | .cons (.plain n _ _ _) rest => n :: fieldNamesList rest
  | .cons (.emb n _ _ _ st) rest => n :: (allFieldNames st ++ fieldNamesList rest)
end

/-- Specification-side description of the top-level pass of claim C1:
the non-embedded fields that survive the export filter and the dash
sentinel, in declaration order, all bound to one fixed base name. -/
def specTopFields (compile : RegexCompile) (f : FlagOptions)
    (sp bn : String) : GoFieldList → Except String (List parsedField)
  | .nil => .ok []
  | .cons fld rest =>
    if ¬ f.IncludeUnexportedFields ∧ ¬ fld.exported then
      specTopFields compile f sp bn rest
    else do
      let r ← parseField compile sp fld bn f
      if r.constValue = "-" then specTopFields compile f sp bn rest
      else
        match fld with
        | .emb _ _ _ _ _ => specTopFields compile f sp bn rest
        | .plain _ _ _ _ => do
          let tl ← specTopFields compile f sp bn rest
          pure (⟨r, bn⟩ :: tl)

/-- Specification-side description of the promoted fields of claim C1:
the resolutions of the embedded structs that survive the export filter
and the dash sentinel, concatenated in the declaration order of their
owning embedded fields. -/
def specEmbFields (compile : RegexCompile) (f : FlagOptions)
    (sp bn : String) : GoFieldList → Except String (List parsedField)
  | .nil => .ok []
  | .cons fld rest =>
    if ¬ f.IncludeUnexportedFields ∧ ¬ fld.exported then
      specEmbFields compile f sp bn rest
    else do
      let r ← parseField compile sp fld bn f
      if r.constValue = "-" then specEmbFields compile f sp bn rest
      else
        match fld with
        | .emb _ _ _ _ st => do
          let embFs ← parseStructFields compile f sp bn st
          let tl ← specEmbFields compile f sp bn rest
          pure (embFs ++ tl)
        | .plain _ _ _ _ => specEmbFields compile f sp bn rest

/-- The base name as the spec words it in the naming-engine section:
the explicit prefix, or the record name followed by the cased key and
Field, or the cased key and Field; the first character is then forced
by the export flag. -/
def specBaseName (f : FlagOptions) : Option String :=
  let casedKey := if f.UseStructName || f.Export then strToUpper f.Tag else strToLower f.Tag
  let base := match f.Prefix with
    | some p => p
    | none =>
      if f.UseStructName then f.SourceStruct ++ casedKey ++ "Field" else casedKey ++ "Field"
  recaseFirst f.Export base

/-- The constant value carried by one generated constant line. -/
def ConstEntry.value : ConstEntry → String
  | .untyped _ v => v
  | .styled _ _ v => v
  | .generic _ _ _ v => v

theorem charOfNat_toNat (n : Nat) (h : n.isValidChar) : (Char.ofNat n).toNat = n := by
  simp only [Char.ofNat, h, dite_true, Char.ofNatAux, Char.toNat]
  simp [UInt32.toNat, BitVec.toNat_ofNatLt]

theorem toUpper_of_not_lower (c : Char) (h : ¬ (c.toNat ≥ 97 ∧ c.toNat ≤ 122)) :
    c.toUpper = c := by
  unfold Char.toUpper
  rw [if_neg h]

theorem toUpper_toNat_of_lower (c : Char) (h : c.toNat ≥ 97 ∧ c.toNat ≤ 122) :
    c.toUpper.toNat = c.toNat - 32 := by
  unfold Char.toUpper
  rw [if_pos h]
  exact charOfNat_toNat _ (Or.inl (by omega))

theorem toUpper_idem (c : Char) : c.toUpper.toUpper = c.toUpper := by
  apply toUpper_of_not_lower
  by_cases h : c.toNat ≥ 97 ∧ c.toNat ≤ 122
  · rw [toUpper_toNat_of_lower c h]; omega
  · rw [toUpper_of_not_lower c h]; exact h

theorem toLower_of_not_upper (c : Char) (h : ¬ (c.toNat ≥ 65 ∧ c.toNat ≤ 90)) :
    c.toLower = c := by
  unfold Char.toLower
  rw [if_neg h]

theorem toLower_toNat_of_upper (c : Char) (h : c.toNat ≥ 65 ∧ c.toNat ≤ 90) :
    c.toLower.toNat = c.toNat + 32 := by
  unfold Char.toLower
  rw [if_pos h]
  exact charOfNat_toNat _ (Or.inl (by omega))

theorem toLower_idem (c : Char) : c.toLower.toLower = c.toLower := by
  apply toLower_of_not_upper
  by_cases h : c.toNat ≥ 65 ∧ c.toNat ≤ 90
  · rw [toLower_toNat_of_upper c h]; omega
  · rw [toLower_of_not_upper c h]; exact h

theorem capFirst_idem (e : Bool) (c : Char) : capFirst e (capFirst e c) = capFirst e c := by
  cases e <;> simp [capFirst, toUpper_idem, toLower_idem]

theorem recaseFirstD_of_recaseFirst (e : Bool) (s t : String)
    (h : recaseFirst e s = some t) : recaseFirstD e t = t := by
  unfold recaseFirst at h
  unfold recaseFirstD
  cases hs : s.data with
  | nil => rw [hs] at h; exact absurd h (by simp)
  | cons c cs =>
    rw [hs] at h
    simp only [Option.some.injEq] at h
    subst h
    simp [capFirst_idem]

theorem calculateBaseName_fixed (f : FlagOptions) (b : String)
    (h : calculateBaseName f = some b) : recaseFirstD f.Export b = b :=
  recaseFirstD_of_recaseFirst f.Export (calculateBaseNameRaw f) b h

theorem string_eq_empty_of_data (s : String) (h : s.data = []) : s = "" := by
  cases s with
  | mk d => subst h; rfl

theorem string_length_pos_iff (s : String) : 0 < s.length ↔ s ≠ "" := by
  constructor
  · intro h he
    subst he
    simp at h
  · intro h
    cases he : s.data with
    | nil => exact absurd (string_eq_empty_of_data s he) h
    | cons c cs => simp [String.length, he]

/-- Claim C9: the catalog key is the plain concatenation of directory,
package name and include-tests flag with no separator, so it is not
injective: the directory /ab with empty package name and the directory
/a with package name b share the key and therefore share one cached
load entry in the deduplication loop. -/
theorem c9_catalog_key_not_injective :
    (∀ p : packageToLoad, p.Key = p.Dir ++ p.PackageName ++ boolString p.IncludeTests) ∧
    packageToLoad.Key ⟨"/ab", "", false⟩ = packageToLoad.Key ⟨"/a", "b", false⟩ ∧
    (⟨"/ab", "", false⟩ : packageToLoad) ≠ ⟨"/a", "b", false⟩ ∧
    uniqueLoads [⟨"/ab", "", false⟩, ⟨"/a", "b", false⟩] [] = [⟨"/ab", "", false⟩] :=
  ⟨fun _ => rfl, by decide, by decide, by decide⟩

/-- Claim C10: with an explicit but empty Prefix the base-name
computation reaches the first-character indexing of an empty string,
the modeled panic; whenever the composed raw name is non-empty the
computation succeeds. -/
theorem c10_empty_prefix_panics (f : FlagOptions) :
    (f.Prefix = some "" → calculateBaseName f = none) ∧
    (calculateBaseNameRaw f ≠ "" → (calculateBaseName f).isSome = true) := by
  constructor
  · intro h
    simp [calculateBaseName, calculateBaseNameRaw, h, recaseFirst]
  · intro h
    unfold calculateBaseName recaseFirst
    cases hd : (calculateBaseNameRaw f).data with
    | nil => exact absurd (string_eq_empty_of_data _ hd) h
    | cons c cs => simp

theorem c10_empty_prefix_panics_witness :
    calculateBaseName { SourceStruct := "Person", Prefix := some "" } = none ∧
    (calculateBaseName { SourceStruct := "Person", Prefix := some "DBCol" }).isSome = true :=
  ⟨(c10_empty_prefix_panics _).1 rfl, (c10_empty_prefix_panics _).2 (by decide)⟩

/-- Claim C8: a request combining the enumeration helper with the
alias style is rejected by the leading check of parsePackage, whatever
struct or package the request would otherwise resolve, so neither
resolution nor any of its text generation happens. -/
theorem c8_iter_alias_incompatible (compile : RegexCompile) (f : FlagOptions)
    (structPackage : String) (s : GoStruct)
    (hIter : f.Iter = true) (hStyle : f.Style = StyleAlias) :
    parsePackage compile f structPackage s =
      .error ("Invalid style " ++ f.Style ++
        ": only generic and typed styles may be used with the iter flag") := by
  unfold parsePackage
  rw [if_pos ⟨hIter, hStyle⟩]

theorem c8_iter_alias_incompatible_witness :
    parsePackage (fun _ => none)
        { SourceStruct := "Person", Style := StyleAlias, Iter := true } "p" (.mk .nil) =
      .error ("Invalid style " ++ StyleAlias ++
        ": only generic and typed styles may be used with the iter flag") :=
  c8_iter_alias_incompatible (fun _ => none) _ "p" (.mk .nil) rfl rfl

/-- Claim C4, counterexample to the deduplication part: a map whose key
and value are named types of the same external module yields that
module path twice in the reference list of one encode call; nothing in
the encoder deduplicates. -/
theorem c4_encoder_refs_counterexample :
    (parseTypeName "home" (.mapT (.named "ext.A") (.named "ext.B"))).2 = ["ext", "ext"] ∧
    ¬ (parseTypeName "home" (.mapT (.named "ext.A") (.named "ext.B"))).2.Nodup := by
  constructor
  · decide
  · decide

/-- Claim C4 as amended: a named type of the home module is emitted as
its local identifier alone with no reference; any other named type with
a qualified name records exactly one reference, its owning module path;
and composite shapes such as maps concatenate the reference lists of
their children without deduplication, so one encode call may repeat a
module path. -/
theorem c4_encoder_refs (sp n : String) :
    (∀ i, lastIndexOfChar '.' n = some i → strTake n i = sp →
      parseNamedType sp n = (strDrop n (i + 1), [])) ∧
    (∀ i, lastIndexOfChar '.' n = some i → strTake n i ≠ sp →
      (parseNamedType sp n).2 = [strTake n i]) ∧
    (∀ k v : GoType, parseTypeName sp (.mapT k v) =
      ("map[" ++ (parseTypeName sp k).1 ++ "]" ++ (parseTypeName sp v).1,
        (parseTypeName sp k).2 ++ (parseTypeName sp v).2)) := by
  refine ⟨fun i hi hsp => ?_, fun i hi hsp => ?_, fun k v => ?_⟩
  · unfold parseNamedType
    rw [hi]
    simp [hsp]
  · unfold parseNamedType
    rw [hi]
    simp only [if_neg hsp]
  · simp [parseTypeName]

theorem c4_encoder_refs_witness :
    (lastIndexOfChar '.' "ext.A" = some 3 ∧ strTake "ext.A" 3 = "ext" ∧
      parseNamedType "ext" "ext.A" = (strDrop "ext.A" 4, [])) ∧
    (strTake "ext.A" 3 ≠ "home" ∧ (parseNamedType "home" "ext.A").2 = [strTake "ext.A" 3]) ∧
    parseTypeName "home" (.mapT (.named "ext.A") (.basic "int")) =
      ("map[" ++ (parseTypeName "home" (.named "ext.A")).1 ++ "]" ++
        (parseTypeName "home" (.basic "int")).1,
        (parseTypeName "home" (.named "ext.A")).2 ++ (parseTypeName "home" (.basic "int")).2) :=
  ⟨⟨by decide, by decide, (c4_encoder_refs "ext" "ext.A").1 3 (by decide) (by decide)⟩,
    ⟨by decide, (c4_encoder_refs "home" "ext.A").2.1 3 (by decide) (by decide)⟩,
    (c4_encoder_refs "home" "ext.A").2.2 (.named "ext.A") (.basic "int")⟩

/-- Claim C2, counterexample: for a field F carrying the tag entry
db:",omitempty" whose name portion is empty, with key db configured and
no capture expression, the code falls back to the field identifier F
while the claim prescribes the empty name portion. -/
theorem c2_value_rules_counterexample :
    parseField (fun _ => none) "p"
        (.plain "F" [⟨"db", "", ["omitempty"]⟩] (.basic "int") true) "dbField"
        { Tag := "db" } =
      .ok ⟨"int", "dbFieldF", "F", []⟩ ∧
    claimedConstValue (fun _ => none) { Tag := "db" } "F" [⟨"db", "", ["omitempty"]⟩] = "" ∧
    ("F" : String) ≠ "" := by
  refine ⟨rfl, by decide, by decide⟩

/-- Claim C2 as amended: for every field without an explicit sfgen
override, parseField returns the amended value rule above, packaged
with the encoded field type, the concatenated constant name and the
required imports. -/
theorem c2_value_rules (compile : RegexCompile) (f : FlagOptions) (fld : GoField)
    (sp bn : String) (hOv : sfgenTagName f.Tag fld.tags = none) :
    parseField compile sp fld bn f =
      (amendedConstValue compile f fld.name fld.tags).map
        (fun v => ⟨(parseTypeName sp fld.ftype).1, bn ++ fld.name, v,
          (parseTypeName sp fld.ftype).2⟩) := by
  by_cases hT : f.Tag = ""
  · rw [hT] at hOv
    simp [parseField, amendedConstValue, hOv, hT, Except.map]
  · cases hGet : tagsGet f.Tag fld.tags with
    | none => simp [parseField, amendedConstValue, hOv, hT, hGet, Except.map]
    | some t =>
      by_cases hRe : f.TagNameRegex = ""
      · by_cases hn : t.name = ""
        · simp [parseField, amendedConstValue, hOv, hT, hGet, hRe, hn, Except.map]
        · have hlen := (string_length_pos_iff t.name).2 hn
          simp [parseField, amendedConstValue, hOv, hT, hGet, hRe, hn, hlen, Except.map]
      · by_cases hv : t.Value = ""
        · have hnl : ¬ 0 < t.Value.length := by simp [hv]
          simp [parseField, amendedConstValue, hOv, hT, hGet, hRe, hv, hnl, Except.map]
        · have hlen := (string_length_pos_iff t.Value).2 hv
          cases hC : compile f.TagNameRegex with
          | none =>
            simp [parseField, amendedConstValue, hOv, hT, hGet, hRe, hv, hlen, hC, Except.map]
          | some re =>
            simp [parseField, amendedConstValue, hOv, hT, hGet, hRe, hv, hlen, hC, Except.map]

theorem exceptBind_ok {α β : Type} (x : Except String α) (g : α → Except String β) (b : β)
    (h : (x >>= g) = .ok b) : ∃ a, x = .ok a ∧ g a = .ok b := by
  cases x with
  | error e => simp [Bind.bind, Except.bind] at h
  | ok a => exact ⟨a, rfl, by simpa [Bind.bind, Except.bind] using h⟩

theorem exceptPure_ok {α : Type} (a b : α) (h : (pure a : Except String α) = .ok b) : a = b := by
  simpa [pure, Except.pure] using h

theorem parseField_ok_constName (compile : RegexCompile) (sp : String) (fld : GoField)
    (bn : String) (f : FlagOptions) (r : parseFieldResult)
    (h : parseField compile sp fld bn f = .ok r) : r.constName = bn ++ fld.name := by
  unfold parseField at h
  rcases hpt : parseTypeName sp fld.ftype with ⟨ft, imps⟩
  rw [hpt] at h
  simp only at h
  cases hs : sfgenTagName f.Tag fld.tags with
  | some v => rw [hs] at h; cases h; rfl
  | none =>
    rw [hs] at h
    by_cases hT : f.Tag = ""
    · rw [if_pos hT] at h; cases h; rfl
    · rw [if_neg hT] at h
      cases hg : tagsGet f.Tag fld.tags with
      | none => rw [hg] at h; cases h; rfl
      | some t =>
        rw [hg] at h
        dsimp only at h
        by_cases hc : t.Value.length > 0 ∧ f.TagNameRegex ≠ ""
        · rw [if_pos hc] at h
          cases hC : compile f.TagNameRegex with
          | none => rw [hC] at h; cases h
          | some re => rw [hC] at h; cases h; rfl
        · rw [if_neg hc] at h; cases h; rfl

theorem mem_fieldNamesList_cons (fld : GoField) (rest : GoFieldList) (x : String)
    (hx : x ∈ fieldNamesList rest) : x ∈ fieldNamesList (.cons fld rest) := by
  cases fld with
  | plain n tg ty ex => simp [fieldNamesList]; exact Or.inr hx
  | emb n tg ty ex st =>
    simp [fieldNamesList]
    exact Or.inr (Or.inr hx)

mutual
theorem parseStructFields_spec (compile : RegexCompile) (f : FlagOptions) (sp bn : String)
    (hbn : recaseFirstD f.Export bn = bn) (s : GoStruct) (l : List parsedField)
    (h : parseStructFields compile f sp bn s = .ok l) :
    ∀ pf ∈ l, pf.constValue ≠ "-" ∧ pf.baseName = bn ∧
      ∃ fid, fid ∈ allFieldNames s ∧ pf.constName = bn ++ fid := by
  match s with
  | .mk flds =>
    rw [parseStructFields] at h
    obtain ⟨acc, hg, hp⟩ := exceptBind_ok _ _ _ h
    have hacc := exceptPure_ok _ _ hp
    obtain ⟨hta, hea, htn, htf, hef⟩ := goFields_spec compile f sp bn hbn flds acc hg
    intro pf hpf
    rw [← hacc] at hpf
    rcases List.mem_append.1 hpf with h1 | h2
    · obtain ⟨hd, hb, fid, hfid, hcn⟩ := htf pf h1
      exact ⟨hd, hb, fid, by simpa [allFieldNames] using hfid, hcn⟩
    · obtain ⟨hd, hb, fid, hfid, hcn⟩ := hef pf (List.mem_filter.1 h2).1
      exact ⟨hd, hb, fid, by simpa [allFieldNames] using hfid, hcn⟩

theorem goFields_spec (compile : RegexCompile) (f : FlagOptions) (sp bn : String)
    (hbn : recaseFirstD f.Export bn = bn) (flds : GoFieldList) (acc : FieldsAcc)
    (h : goFields compile f sp bn flds = .ok acc) :
    specTopFields compile f sp bn flds = .ok acc.tops ∧
    specEmbFields compile f sp bn flds = .ok acc.embs ∧
    acc.topNames = acc.tops.map (fun pf => pf.constName) ∧
    (∀ pf ∈ acc.tops, pf.constValue ≠ "-" ∧ pf.baseName = bn ∧
      ∃ fid, fid ∈ fieldNamesList flds ∧ pf.constName = bn ++ fid) ∧
    (∀ pf ∈ acc.embs, pf.constValue ≠ "-" ∧ pf.baseName = bn ∧
      ∃ fid, fid ∈ fieldNamesList flds ∧ pf.constName = bn ++ fid) := by
  match flds with
  | .nil =>
    rw [goFields] at h
    have hacc := exceptPure_ok _ _ h
    rw [← hacc]
    exact ⟨rfl, rfl, rfl, by simp, by simp⟩
  | .cons fld rest =>
    rw [goFields] at h
    by_cases hskip : ¬ f.IncludeUnexportedFields = true ∧ ¬ fld.exported = true
    · rw [if_pos hskip] at h
      obtain ⟨hta, hea, htn, htf, hef⟩ := goFields_spec compile f sp bn hbn rest acc h
      refine ⟨?_, ?_, htn, ?_, ?_⟩
      · rw [specTopFields, if_pos hskip]; exact hta
      · rw [specEmbFields.eq_def]
        dsimp only
        rw [if_pos hskip]; exact hea
      · intro pf hpf
        obtain ⟨hd, hb, fid, hfid, hcn⟩ := htf pf hpf
        exact ⟨hd, hb, fid, mem_fieldNamesList_cons fld rest fid hfid, hcn⟩
      · intro pf hpf
        obtain ⟨hd, hb, fid, hfid, hcn⟩ := hef pf hpf
        exact ⟨hd, hb, fid, mem_fieldNamesList_cons fld rest fid hfid, hcn⟩
    · rw [if_neg hskip] at h
      obtain ⟨r, hr, h2⟩ := exceptBind_ok _ _ _ h
      by_cases hdash : r.constValue = "-"
      · rw [if_pos hdash] at h2
        obtain ⟨hta, hea, htn, htf, hef⟩ := goFields_spec compile f sp bn hbn rest acc h2
        refine ⟨?_, ?_, htn, ?_, ?_⟩
        · rw [specTopFields, if_neg hskip, hr]
          simp only [Bind.bind, Except.bind]
          rw [if_pos hdash]
          exact hta
        · rw [specEmbFields.eq_def]
          dsimp only
          rw [if_neg hskip, hr]
          simp only [Bind.bind, Except.bind]
          rw [if_pos hdash]
          exact hea
        · intro pf hpf
          obtain ⟨hd, hb, fid, hfid, hcn⟩ := htf pf hpf
          exact ⟨hd, hb, fid, mem_fieldNamesList_cons fld rest fid hfid, hcn⟩
        · intro pf hpf
          obtain ⟨hd, hb, fid, hfid, hcn⟩ := hef pf hpf
          exact ⟨hd, hb, fid, mem_fieldNamesList_cons fld rest fid hfid, hcn⟩
      · rw [if_neg hdash] at h2
        cases fld with
        | plain n tg ty ex =>
          simp only [hbn] at h2
          obtain ⟨acc2, hg2, hp⟩ := exceptBind_ok _ _ _ h2
          have hacc := exceptPure_ok _ _ hp
          obtain ⟨hta, hea, htn, htf, hef⟩ := goFields_spec compile f sp bn hbn rest acc2 hg2
          have hcn0 := parseField_ok_constName compile sp _ bn f r hr
          rw [← hacc]
          refine ⟨?_, ?_, ?_, ?_, ?_⟩
          · rw [specTopFields, if_neg hskip, hr]
            simp only [Bind.bind, Except.bind]
            rw [if_neg hdash]
            simp only [hta, Bind.bind, Except.bind, pure, Except.pure]
          · rw [specEmbFields.eq_def]
            dsimp only
            rw [if_neg hskip, hr]
            simp only [Bind.bind, Except.bind]
            rw [if_neg hdash]
            exact hea
          · simpa using htn
          · intro pf hpf
            rcases List.mem_cons.1 hpf with h1 | h1
            · subst h1
              exact ⟨hdash, rfl, n, by simp [fieldNamesList], hcn0⟩
            · obtain ⟨hd, hb, fid, hfid, hcn⟩ := htf pf h1
              exact ⟨hd, hb, fid, mem_fieldNamesList_cons _ rest fid hfid, hcn⟩
          · intro pf hpf
            obtain ⟨hd, hb, fid, hfid, hcn⟩ := hef pf hpf
            exact ⟨hd, hb, fid, mem_fieldNamesList_cons _ rest fid hfid, hcn⟩
        | emb n tg ty ex st =>
          obtain ⟨embFs, hst, h3⟩ := exceptBind_ok _ _ _ h2
          obtain ⟨acc2, hg2, hp⟩ := exceptBind_ok _ _ _ h3
          have hacc := exceptPure_ok _ _ hp
          have hembF := parseStructFields_spec compile f sp bn hbn st embFs hst
          obtain ⟨hta, hea, htn, htf, hef⟩ := goFields_spec compile f sp bn hbn rest acc2 hg2
          rw [← hacc]
          refine ⟨?_, ?_, htn, ?_, ?_⟩
          · rw [specTopFields, if_neg hskip, hr]
            simp only [Bind.bind, Except.bind]
            rw [if_neg hdash]
            exact hta
          · rw [specEmbFields.eq_def]
            dsimp only
            rw [if_neg hskip, hr]
            simp only [Bind.bind, Except.bind]
            rw [if_neg hdash, hst]
            simp only [Bind.bind, Except.bind, hea, pure, Except.pure]
          · intro pf hpf
            obtain ⟨hd, hb, fid, hfid, hcn⟩ := htf pf hpf
            exact ⟨hd, hb, fid, mem_fieldNamesList_cons _ rest fid hfid, hcn⟩
          · intro pf hpf
            rcases List.mem_append.1 hpf with h1 | h1
            · obtain ⟨hd, hb, fid, hfid, hcn⟩ := hembF pf h1
              refine ⟨hd, hb, fid, ?_, hcn⟩
              simp only [fieldNamesList, List.mem_cons, List.mem_append]
              exact Or.inr (Or.inl hfid)
            · obtain ⟨hd, hb, fid, hfid, hcn⟩ := hef pf h1
              exact ⟨hd, hb, fid, mem_fieldNamesList_cons _ rest fid hfid, hcn⟩
end

theorem mergeSeen_eq_dedupFirst (l : List String) (seen : List String) :
    mergeSeen seen l = dedupFirst (l.filter (fun x => !(seen.contains x))) := by
  induction l generalizing seen with
  | nil => simp [mergeSeen, dedupFirst]
  | cons i is ih =>
    rw [mergeSeen, List.filter_cons]
    by_cases h : seen.contains i
    · rw [if_pos h, ih]
      have hm : i ∈ seen := by simpa using h
      simp [hm]
    · rw [if_neg h, ih]
      have hcond : (!seen.contains i) = true := by simpa using h
      rw [if_pos hcond]
      simp only [dedupFirst]
      rw [List.filter_filter]
      congr 1
      congr 1
      apply List.filter_congr
      intro x _
      by_cases hx : x = i
      · subst hx
        simp [List.contains_cons]
      · simp [List.contains_cons, hx]

theorem dedupFirst_sublist (l : List String) : List.Sublist (dedupFirst l) l := by
  induction l using dedupFirst.induct with
  | case1 => simp [dedupFirst]
  | case2 a l ih =>
    simp only [dedupFirst]
    exact (ih.trans (List.filter_sublist l)).cons₂ a

theorem mem_dedupFirst (a : String) (l : List String) : a ∈ dedupFirst l ↔ a ∈ l := by
  induction l using dedupFirst.induct with
  | case1 => simp [dedupFirst]
  | case2 b l ih =>
    simp only [dedupFirst]
    simp only [List.mem_cons, ih, List.mem_filter]
    constructor
    · rintro (rfl | ⟨hl, _⟩)
      · exact Or.inl rfl
      · exact Or.inr hl
    · rintro (rfl | hl)
      · exact Or.inl rfl
      · by_cases hb : a = b
        · exact Or.inl hb
        · exact Or.inr ⟨hl, by simpa using hb⟩

theorem dedupFirst_nodup (l : List String) : (dedupFirst l).Nodup := by
  induction l using dedupFirst.induct with
  | case1 => simp [dedupFirst]
  | case2 a l ih =>
    simp only [dedupFirst]
    refine List.Nodup.cons ?_ ih
    intro hmem
    have := (mem_dedupFirst a _).1 hmem
    rw [List.mem_filter] at this
    simpa using this.2

theorem mergeImports_eq_dedupFirst (ls : List (List String)) :
    mergeImports ls = dedupFirst ls.flatten := by
  rw [mergeImports, mergeSeen_eq_dedupFirst]
  congr 1
  simpa using List.filter_true ls.flatten

/-- Claim C6: a successful group generation keeps the per-request
fragments exactly in caller order, and its import list is the first
seen deduplication of the concatenated per-fragment import lists:
duplicate free, a sublist of the concatenation (so first-seen order is
preserved), and containing exactly the members of the union. -/
theorem c6_group_merge (compile : RegexCompile) (group : List (FlagOptions × String × GoStruct))
    (res : GroupResult)
    (h : generateCodeForFileGroup compile group = .ok res) :
    (∃ frags, group.mapM (fun g => parsePackage compile g.1 g.2.1 g.2.2) = .ok frags ∧
      res.fragments = frags) ∧
    res.imports = dedupFirst ((res.fragments.map (fun fr => fr.imports)).flatten) ∧
    res.imports.Nodup ∧
    List.Sublist res.imports ((res.fragments.map (fun fr => fr.imports)).flatten) ∧
    (∀ a, a ∈ res.imports ↔ a ∈ (res.fragments.map (fun fr => fr.imports)).flatten) := by
  have hres : ∃ frags, group.mapM (fun g => parsePackage compile g.1 g.2.1 g.2.2) = .ok frags ∧
      res.fragments = frags ∧ res.imports = mergeImports (frags.map (fun fr => fr.imports)) := by
    cases group with
    | nil =>
      rw [generateCodeForFileGroup] at h
      cases h
      exact ⟨[], rfl, rfl, rfl⟩
    | cons g0 gs =>
      rw [generateCodeForFileGroup] at h
      cases hm : (g0 :: gs).mapM (fun g => parsePackage compile g.1 g.2.1 g.2.2) with
      | error e => rw [hm] at h; exact absurd h (by simp [Except.bind])
      | ok frags =>
        rw [hm] at h
        simp only [Bind.bind, Except.bind, pure, Except.pure, Except.ok.injEq] at h
        exact ⟨frags, rfl, by rw [← h], by rw [← h]⟩
  obtain ⟨frags, hm, hfr, him⟩ := hres
  rw [him, hfr, mergeImports_eq_dedupFirst]
  exact ⟨⟨frags, hm, rfl⟩, rfl, dedupFirst_nodup _, dedupFirst_sublist _,
    fun a => mem_dedupFirst a _⟩

/-- Claim C1: a resolved field list is exactly the surviving top-level
fields in declaration order followed by the fields promoted from
embedded structs in the declaration order of their owners, where a
promoted field is suppressed precisely when its constant name equals
the constant name of any top-level field. -/
theorem c1_field_order (compile : RegexCompile) (f : FlagOptions) (sp bn : String)
    (flds : GoFieldList) (l : List parsedField)
    (hbn : recaseFirstD f.Export bn = bn)
    (h : parseStructFields compile f sp bn (.mk flds) = .ok l) :
    ∃ tops embs, specTopFields compile f sp bn flds = .ok tops ∧
      specEmbFields compile f sp bn flds = .ok embs ∧
      l = tops ++ embs.filter
        (fun pf => ¬ (tops.map (fun t => t.constName)).contains pf.constName) := by
  rw [parseStructFields] at h
  obtain ⟨acc, hg, hp⟩ := exceptBind_ok _ _ _ h
  have hacc := exceptPure_ok _ _ hp
  obtain ⟨hta, hea, htn, _, _⟩ := goFields_spec compile f sp bn hbn flds acc hg
  exact ⟨acc.tops, acc.embs, hta, hea, by rw [← hacc, ← htn]⟩

theorem c1_field_order_witness :
    recaseFirstD false "field" = "field" ∧
    parseStructFields (fun _ => none) {} "p" "field"
        (.mk (.cons (.plain "A" [] (.basic "int") true)
          (.cons (.emb "Embedded" [] (.named "p.Embedded") true
            (.mk (.cons (.plain "A" [] (.basic "string") true) .nil))) .nil))) =
      .ok [⟨⟨"int", "fieldA", "A", []⟩, "field"⟩] ∧
    (∃ tops embs,
      specTopFields (fun _ => none) {} "p" "field"
          (.cons (.plain "A" [] (.basic "int") true)
            (.cons (.emb "Embedded" [] (.named "p.Embedded") true
              (.mk (.cons (.plain "A" [] (.basic "string") true) .nil))) .nil)) = .ok tops ∧
      specEmbFields (fun _ => none) {} "p" "field"
          (.cons (.plain "A" [] (.basic "int") true)
            (.cons (.emb "Embedded" [] (.named "p.Embedded") true
              (.mk (.cons (.plain "A" [] (.basic "string") true) .nil))) .nil)) = .ok embs ∧
      [(⟨⟨"int", "fieldA", "A", []⟩, "field"⟩ : parsedField)] = tops ++ embs.filter
        (fun pf => ¬ (tops.map (fun t => t.constName)).contains pf.constName)) :=
  ⟨by decide, rfl,
    c1_field_order (fun _ => none) {} "p" "field"
      (.cons (.plain "A" [] (.basic "int") true)
        (.cons (.emb "Embedded" [] (.named "p.Embedded") true
          (.mk (.cons (.plain "A" [] (.basic "string") true) .nil))) .nil))
      [⟨⟨"int", "fieldA", "A", []⟩, "field"⟩] (by decide) rfl⟩

/-- Claim C3: the base name computed by calculateBaseName follows the
spec formula, explicit prefix first, else the optional record name,
the cased key and the Field suffix, with the first character forced by
the export flag; and every resolved constant name is that base name
directly concatenated with a field identifier of the record, with no
separator. -/
theorem c3_base_name_concat (compile : RegexCompile) (f : FlagOptions)
    (sp bn : String) (s : GoStruct) (l : List parsedField)
    (hb : calculateBaseName f = some bn)
    (h : parseStructFields compile f sp bn s = .ok l) :
    calculateBaseName f = specBaseName f ∧
    ∀ pf ∈ l, ∃ fid, fid ∈ allFieldNames s ∧ pf.constName = bn ++ fid := by
  constructor
  · unfold calculateBaseName specBaseName calculateBaseNameRaw
    cases hP : f.Prefix <;> cases hU : f.UseStructName <;>
      simp [hP, hU, String.append_assoc]
  · intro pf hpf
    obtain ⟨_, _, fid, hfid, hcn⟩ :=
      parseStructFields_spec compile f sp bn (calculateBaseName_fixed f bn hb) s l h pf hpf
    exact ⟨fid, hfid, hcn⟩

theorem c3_base_name_concat_witness :
    calculateBaseName { SourceStruct := "Person", Tag := "db", Export := true } =
      specBaseName { SourceStruct := "Person", Tag := "db", Export := true } ∧
    ∀ pf ∈ [(⟨⟨"string", "DBFieldFullName", "full_name", []⟩, "DBField"⟩ : parsedField)],
      ∃ fid, fid ∈ allFieldNames
          (.mk (.cons (.plain "FullName" [⟨"db", "full_name", []⟩] (.basic "string") true) .nil)) ∧
        pf.constName = "DBField" ++ fid :=
  c3_base_name_concat (fun _ => none)
    { SourceStruct := "Person", Tag := "db", Export := true } "p" "DBField"
    (.mk (.cons (.plain "FullName" [⟨"db", "full_name", []⟩] (.basic "string") true) .nil))
    [⟨⟨"string", "DBFieldFullName", "full_name", []⟩, "DBField"⟩] (by decide) rfl

/-- Claim C5: a field whose computed constant value is the dash
sentinel is absent from the resolved field list, absent from the
generated constant block, and absent from the All helper values. -/
theorem c5_dash_excluded (compile : RegexCompile) (f : FlagOptions) (sp bn : String)
    (s : GoStruct) (l : List parsedField) (frag : GenFragment)
    (hb : calculateBaseName f = some bn)
    (h : parseStructFields compile f sp bn s = .ok l)
    (hp : parsePackage compile f sp s = .ok frag) :
    (∀ pf ∈ l, pf.constValue ≠ "-") ∧
    (∀ e ∈ frag.constants, ConstEntry.value e ≠ "-") ∧
    (∀ vs, frag.allValues = some vs → "-" ∉ vs) := by
  have hnd : ∀ pf ∈ l, pf.constValue ≠ "-" := by
    intro pf hpf
    exact (parseStructFields_spec compile f sp bn
      (calculateBaseName_fixed f bn hb) s l h pf hpf).1
  have hchar : frag.constants = l.map (fun fld =>
        if f.Style = StyleAlias ∨ f.Style = StyleTyped then
          ConstEntry.styled fld.constName fld.baseName fld.constValue
        else if f.Style = StyleGeneric then
          ConstEntry.generic fld.constName fld.baseName fld.fieldType fld.constValue
        else ConstEntry.untyped fld.constName fld.constValue) ∧
      frag.allValues =
        (if f.Iter = true then some (l.map (fun fld => fld.constValue)) else none) := by
    rw [parsePackage] at hp
    by_cases hIA : f.Iter = true ∧ f.Style = StyleAlias
    · rw [if_pos hIA] at hp; cases hp
    · rw [if_neg hIA, hb] at hp
      dsimp only at hp
      obtain ⟨l2, hl2, hp2⟩ := exceptBind_ok _ _ _ hp
      rw [h] at hl2
      have hl2' : l2 = l := (Except.ok.inj hl2).symm
      subst hl2'
      have hfrag := exceptPure_ok _ _ hp2
      rw [← hfrag]
      exact ⟨rfl, rfl⟩
  refine ⟨hnd, ?_, ?_⟩
  · rw [hchar.1]
    intro e he
    obtain ⟨fld, hfld, hfe⟩ := List.mem_map.1 he
    have hv := hnd fld hfld
    rw [← hfe]
    split
    · simpa [ConstEntry.value] using hv
    · split
      · simpa [ConstEntry.value] using hv
      · simpa [ConstEntry.value] using hv
  · intro vs hvs hmem
    rw [hchar.2] at hvs
    split at hvs
    · cases hvs
      obtain ⟨fld, hfld, hfe⟩ := List.mem_map.1 hmem
      exact hnd fld hfld hfe
    · cases hvs

theorem c5_dash_excluded_witness :
    (∀ pf ∈ [(⟨⟨"string", "DBFieldFullName", "full_name", []⟩, "DBField"⟩ : parsedField)],
      pf.constValue ≠ "-") ∧
    (∀ e ∈ (GenFragment.mk .plain [.untyped "DBFieldFullName" "full_name"]
        (some ["full_name"]) []).constants, ConstEntry.value e ≠ "-") ∧
    (∀ vs, (GenFragment.mk .plain [.untyped "DBFieldFullName" "full_name"]
        (some ["full_name"]) []).allValues = some vs → "-" ∉ vs) :=
  c5_dash_excluded (fun _ => none)
    { SourceStruct := "Person", Tag := "db", Export := true, Iter := true } "p" "DBField"
    (.mk (.cons (.plain "FullName" [⟨"db", "full_name", []⟩] (.basic "string") true)
      (.cons (.plain "Ignored" [⟨"db", "-", []⟩] (.basic "int") true) .nil)))
    [⟨⟨"string", "DBFieldFullName", "full_name", []⟩, "DBField"⟩]
    (GenFragment.mk .plain [.untyped "DBFieldFullName" "full_name"] (some ["full_name"]) [])
    (by decide) rfl rfl

theorem c6_group_merge_witness :
    (∃ frags,
      List.mapM (fun g => parsePackage (fun _ => none) g.1 g.2.1 g.2.2)
          [({ SourceStruct := "S", Style := "generic", OutputPackage := "out" }, "p",
              GoStruct.mk (.cons (.plain "A" [] (.named "ext/lib.T") true) .nil)),
            ({ SourceStruct := "S", Style := "generic", OutputPackage := "out" }, "p",
              GoStruct.mk (.cons (.plain "A" [] (.named "ext/lib.T") true) .nil))] = .ok frags ∧
      (GroupResult.mk "out"
          [⟨.generic "field", [.generic "fieldA" "field" "lib.T" "A"], none, ["ext/lib"]⟩,
            ⟨.generic "field", [.generic "fieldA" "field" "lib.T" "A"], none, ["ext/lib"]⟩]
          ["ext/lib"]).fragments = frags) ∧
    (GroupResult.mk "out"
        [⟨.generic "field", [.generic "fieldA" "field" "lib.T" "A"], none, ["ext/lib"]⟩,
          ⟨.generic "field", [.generic "fieldA" "field" "lib.T" "A"], none, ["ext/lib"]⟩]
        ["ext/lib"]).imports =
      dedupFirst (((GroupResult.mk "out"
          [⟨.generic "field", [.generic "fieldA" "field" "lib.T" "A"], none, ["ext/lib"]⟩,
            ⟨.generic "field", [.generic "fieldA" "field" "lib.T" "A"], none, ["ext/lib"]⟩]
          ["ext/lib"]).fragments.map (fun fr => fr.imports)).flatten) ∧
    (GroupResult.mk "out"
        [⟨.generic "field", [.generic "fieldA" "field" "lib.T" "A"], none, ["ext/lib"]⟩,
          ⟨.generic "field", [.generic "fieldA" "field" "lib.T" "A"], none, ["ext/lib"]⟩]
        ["ext/lib"]).imports.Nodup ∧
    List.Sublist (GroupResult.mk "out"
        [⟨.generic "field", [.generic "fieldA" "field" "lib.T" "A"], none, ["ext/lib"]⟩,
          ⟨.generic "field", [.generic "fieldA" "field" "lib.T" "A"], none, ["ext/lib"]⟩]
        ["ext/lib"]).imports
      (((GroupResult.mk "out"
          [⟨.generic "field", [.generic "fieldA" "field" "lib.T" "A"], none, ["ext/lib"]⟩,
            ⟨.generic "field", [.generic "fieldA" "field" "lib.T" "A"], none, ["ext/lib"]⟩]
          ["ext/lib"]).fragments.map (fun fr => fr.imports)).flatten) ∧
    (∀ a, a ∈ (GroupResult.mk "out"
        [⟨.generic "field", [.generic "fieldA" "field" "lib.T" "A"], none, ["ext/lib"]⟩,
          ⟨.generic "field", [.generic "fieldA" "field" "lib.T" "A"], none, ["ext/lib"]⟩]
        ["ext/lib"]).imports ↔
      a ∈ (((GroupResult.mk "out"
          [⟨.generic "field", [.generic "fieldA" "field" "lib.T" "A"], none, ["ext/lib"]⟩,
            ⟨.generic "field", [.generic "fieldA" "field" "lib.T" "A"], none, ["ext/lib"]⟩]
          ["ext/lib"]).fragments.map (fun fr => fr.imports)).flatten)) :=
  c6_group_merge (fun _ => none)
    [({ SourceStruct := "S", Style := "generic", OutputPackage := "out" }, "p",
        GoStruct.mk (.cons (.plain "A" [] (.named "ext/lib.T") true) .nil)),
      ({ SourceStruct := "S", Style := "generic", OutputPackage := "out" }, "p",
        GoStruct.mk (.cons (.plain "A" [] (.named "ext/lib.T") true) .nil))]
    (GroupResult.mk "out"
      [⟨.generic "field", [.generic "fieldA" "field" "lib.T" "A"], none, ["ext/lib"]⟩,
        ⟨.generic "field", [.generic "fieldA" "field" "lib.T" "A"], none, ["ext/lib"]⟩]
      ["ext/lib"]) rfl

theorem c2_value_rules_witness :
    sfgenTagName "db" [⟨"db", "full_name", []⟩] = none ∧
    parseField (fun _ => none) "p"
        (.plain "FullName" [⟨"db", "full_name", []⟩] (.basic "string") true) "dbField"
        { Tag := "db" } =
      (amendedConstValue (fun _ => none) { Tag := "db" } "FullName" [⟨"db", "full_name", []⟩]).map
        (fun v => ⟨"string", "dbFieldFullName", v, []⟩) :=
  ⟨by decide, c2_value_rules (fun _ => none) { Tag := "db" }
    (.plain "FullName" [⟨"db", "full_name", []⟩] (.basic "string") true) "p" "dbField"
    (by decide)⟩

theorem bumpGroup_key (k0 : String) (f0 : FlagOptions) (g : OutGroup) :
    (bumpGroup k0 f0 g).key = g.key := by
  unfold bumpGroup
  split <;> rfl

theorem bumpGroup_first (k0 : String) (f0 : FlagOptions) (g : OutGroup) :
    (bumpGroup k0 f0 g).first = g.first := by
  unfold bumpGroup
  split <;> rfl

theorem find?_map_bump (k0 : String) (f0 : FlagOptions) (acc : List OutGroup) (k : String) :
    (acc.map (bumpGroup k0 f0)).find? (fun g => g.key = k) =
      (acc.find? (fun g => g.key = k)).map (bumpGroup k0 f0) := by
  induction acc with
  | nil => rfl
  | cons g acc ih =>
    rw [List.map_cons]
    by_cases hk : g.key = k
    · rw [List.find?_cons_of_pos _ (by simp [bumpGroup_key, hk]),
        List.find?_cons_of_pos _ (by simp [hk])]
      rfl
    · rw [List.find?_cons_of_neg _ (by simp [bumpGroup_key, hk]),
        List.find?_cons_of_neg _ (by simp [hk])]
      exact ih

theorem resolveOut_outputPackage (absPath : String → String) (f : FlagOptions)
    (k : String) (f1 : FlagOptions) (h : resolveOut absPath f = .ok (k, f1)) :
    f1.OutputPackage = f.OutputPackage := by
  unfold resolveOut at h
  dsimp only at h
  split at h
  · cases h
  · cases h
    rfl

theorem buildGroups_find_pkg (absPath : String → String) (reqs : List FlagOptions) :
    ∀ acc gs, buildGroups absPath reqs acc = .ok gs →
      ∀ r ∈ reqs, ∀ k f1, resolveOut absPath r = .ok (k, f1) →
      ∀ g, acc.find? (fun g => g.key = k) = some g →
      g.first.OutputPackage = f1.OutputPackage := by
  induction reqs with
  | nil =>
    intro acc gs h r hr
    cases hr
  | cons f rest ih =>
    intro acc gs h r hr k f1 hres g hfind
    rw [buildGroups] at h
    obtain ⟨p, hre, h2⟩ := exceptBind_ok _ _ _ h
    obtain ⟨k0, f0⟩ := p
    dsimp only at h2
    cases hfind0 : acc.find? (fun g => g.key = k0) with
    | some g0 =>
      rw [hfind0] at h2
      dsimp only at h2
      by_cases hpkg : g0.first.OutputPackage ≠ f0.OutputPackage
      · rw [if_pos hpkg] at h2
        cases h2
      · rw [if_neg hpkg] at h2
        push_neg at hpkg
        rcases List.mem_cons.1 hr with rfl | hr2
        · rw [hres] at hre
          obtain ⟨hk, hf⟩ := Prod.mk.inj (Except.ok.inj hre)
          subst hk
          subst hf
          rw [hfind] at hfind0
          rw [Option.some.inj hfind0]
          exact hpkg
        · have hfind2 : (acc.map (bumpGroup k0 f0)).find? (fun g => g.key = k) =
              some (bumpGroup k0 f0 g) := by
            rw [find?_map_bump, hfind]
            rfl
          have hres2 := ih _ _ h2 r hr2 k f1 hres _ hfind2
          rwa [bumpGroup_first] at hres2
    | none =>
      rw [hfind0] at h2
      dsimp only at h2
      rcases List.mem_cons.1 hr with rfl | hr2
      · rw [hres] at hre
        obtain ⟨hk, hf⟩ := Prod.mk.inj (Except.ok.inj hre)
        subst hk
        rw [hfind] at hfind0
        cases hfind0
      · have hfind2 : ((acc ++ [(⟨k0, f0, [f0]⟩ : OutGroup)]).find? (fun g => g.key = k)) = some g := by
          rw [List.find?_append, hfind]
          rfl
        exact ih _ _ h2 r hr2 k f1 hres g hfind2

theorem buildGroups_pkg_eq (absPath : String → String) (reqs : List FlagOptions) :
    ∀ acc gs, buildGroups absPath reqs acc = .ok gs →
      ∀ r1 ∈ reqs, ∀ r2 ∈ reqs, ∀ k f1 f2,
        resolveOut absPath r1 = .ok (k, f1) → resolveOut absPath r2 = .ok (k, f2) →
        f1.OutputPackage = f2.OutputPackage := by
  induction reqs with
  | nil =>
    intro acc gs h r1 hr1
    cases hr1
  | cons f rest ih =>
    intro acc gs h r1 hr1 r2 hr2 k f1 f2 hres1 hres2
    rw [buildGroups] at h
    obtain ⟨p, hre, h2⟩ := exceptBind_ok _ _ _ h
    obtain ⟨k0, f0⟩ := p
    dsimp only at h2
    have key_fact : ∃ acc2 g2, buildGroups absPath rest acc2 = .ok gs ∧
        acc2.find? (fun g => g.key = k0) = some g2 ∧
        g2.first.OutputPackage = f0.OutputPackage := by
      cases hfind0 : acc.find? (fun g => g.key = k0) with
      | some g0 =>
        rw [hfind0] at h2
        dsimp only at h2
        by_cases hpkg : g0.first.OutputPackage ≠ f0.OutputPackage
        · rw [if_pos hpkg] at h2
          cases h2
        · rw [if_neg hpkg] at h2
          push_neg at hpkg
          refine ⟨acc.map (bumpGroup k0 f0), bumpGroup k0 f0 g0, h2, ?_, ?_⟩
          · rw [find?_map_bump, hfind0]
            rfl
          · rw [bumpGroup_first]
            exact hpkg
      | none =>
        rw [hfind0] at h2
        dsimp only at h2
        refine ⟨acc ++ [(⟨k0, f0, [f0]⟩ : OutGroup)], ⟨k0, f0, [f0]⟩, h2, ?_, rfl⟩
        rw [List.find?_append, hfind0]
        rw [List.find?_cons_of_pos _ (by simp)]
        rfl
    obtain ⟨acc2, g2, hbg2, hfind2, hpkg2⟩ := key_fact
    rcases List.mem_cons.1 hr1 with rfl | hm1
    · rw [hres1] at hre
      obtain ⟨hk, hf⟩ := Prod.mk.inj (Except.ok.inj hre)
      subst hk
      subst hf
      rcases List.mem_cons.1 hr2 with heq | hm2
      · rw [← heq] at hres1
        rw [hres1] at hres2
        obtain ⟨_, hf2⟩ := Prod.mk.inj (Except.ok.inj hres2)
        rw [hf2]
      · have := buildGroups_find_pkg absPath rest acc2 gs hbg2 r2 hm2 k f2 hres2 g2 hfind2
        rw [hpkg2] at this
        exact this
    · rcases List.mem_cons.1 hr2 with rfl | hm2
      · rw [hres2] at hre
        obtain ⟨hk, hf⟩ := Prod.mk.inj (Except.ok.inj hre)
        subst hk
        subst hf
        have := buildGroups_find_pkg absPath rest acc2 gs hbg2 r1 hm1 k f1 hres1 g2 hfind2
        rw [hpkg2] at this
        exact this.symm
      · exact ih _ _ hbg2 r1 hm1 r2 hm2 k f1 f2 hres1 hres2

/-- Claim C7: two requests that resolve to the same absolute output
target while declaring different destination packages make the grouping
phase of main fail, so the whole run errors whatever the per-group
generation would have produced, and no generation output exists. -/
theorem c7_conflicting_package (absPath : String → String) (reqs : List FlagOptions)
    (r1 r2 : FlagOptions) (k : String) (f1 f2 : FlagOptions)
    (h1 : r1 ∈ reqs) (h2 : r2 ∈ reqs)
    (hr1 : resolveOut absPath r1 = .ok (k, f1))
    (hr2 : resolveOut absPath r2 = .ok (k, f2))
    (hpkg : r1.OutputPackage ≠ r2.OutputPackage) :
    ∀ gen, ∃ e, mainModel absPath gen reqs = .error e := by
  intro gen
  cases hbg : buildGroups absPath reqs [] with
  | error e =>
    refine ⟨e, ?_⟩
    unfold mainModel
    rw [hbg]
    rfl
  | ok gs =>
    exfalso
    have heq := buildGroups_pkg_eq absPath reqs [] gs hbg r1 h1 r2 h2 k f1 f2 hr1 hr2
    rw [resolveOut_outputPackage absPath r1 k f1 hr1,
      resolveOut_outputPackage absPath r2 k f2 hr2] at heq
    exact hpkg heq

theorem c7_conflicting_package_witness :
    ∃ e, mainModel id (fun _ => .ok ⟨"", [], []⟩)
      [{ SourceStruct := "S", OutputFile := "x.go", OutputPackage := "a" },
        { SourceStruct := "S", OutputFile := "x.go", OutputPackage := "b" }] = .error e :=
  c7_conflicting_package id
    [{ SourceStruct := "S", OutputFile := "x.go", OutputPackage := "a" },
      { SourceStruct := "S", OutputFile := "x.go", OutputPackage := "b" }]
    { SourceStruct := "S", OutputFile := "x.go", OutputPackage := "a" }
    { SourceStruct := "S", OutputFile := "x.go", OutputPackage := "b" }
    "./x.go"
    { SourceStruct := "S", OutputFile := "./x.go", OutputPackage := "a" }
    { SourceStruct := "S", OutputFile := "./x.go", OutputPackage := "b" }
    (by simp) (by simp) rfl rfl (by decide)
    (fun _ => .ok ⟨"", [], []⟩)

end Sfgen
